import Mathlib

/-!
Shallow embedding of `src/app.py` (`VideoRecorderMonitor`): the reconciliation
engine that mirrors the primary ingest platform's active recording jobs onto a
secondary DVR recorder.

Modelling conventions:
* Python dicts are association lists in insertion order; assignment to an
  existing key overwrites in place (`dictInsert`).
* Python tuples of strings (job keys) are `List String`.
* Network interaction is modelled by explicit result values: each HTTP
  response is either a failure (network error, undecodable JSON, wrong
  top-level shape) or a well-formed payload, passed in as a parameter or
  produced by an oracle function.  The Python functions that consume the
  responses are translated body-by-body on those result values.
* Python string operations used by the source (`'|'.join`, `.split('|')`,
  `.rsplit('.', 1)[0]`) are implemented over `List Char` with the same
  semantics.
-/

namespace MovieRecord

/-- A Python tuple of string identifiers, as produced by
`tuple(k.split('|'))` in `load_state` and `(ingest_id, job_id)` in
`process_polling_cycle`. -/
abbrev JobKey := List String

/-- The per-job value dict `{'basename': ..., 'logical_name': ...}`. -/
structure JobRecord where
  basename : String
  logical_name : String
deriving DecidableEq

/-- The `previous_active_jobs` / `current_active_jobs` dict: an association
list in insertion order (Python dict). -/
abbrev ActiveJobSet := List (JobKey × JobRecord)

/-- Python `d.get(k)`: first binding of `k`, if any. -/
def lookupKey {α β : Type} [DecidableEq α] (k : α) : List (α × β) → Option β
  | [] => none
  | p :: rest => if p.1 = k then some p.2 else lookupKey k rest

/-- Python `d.get(k, dflt)`. -/
def lookupD {α β : Type} [DecidableEq α] (k : α) (d : List (α × β)) (dflt : β) : β :=
  (lookupKey k d).getD dflt

/-- Python `d.keys()`. -/
def keys {α β : Type} (d : List (α × β)) : List α := d.map Prod.fst

/-- Python `k in d` for a dict. -/
def containsKey {α β : Type} [DecidableEq α] (k : α) (d : List (α × β)) : Bool :=
  d.any fun p => decide (p.1 = k)

/-- Python dict assignment `d[k] = v`: overwrite in place if the key exists,
otherwise append at the end (dicts preserve insertion order). -/
def dictInsert (k : JobKey) (v : JobRecord) (d : ActiveJobSet) : ActiveJobSet :=
  if containsKey k d then d.map fun p => if p.1 = k then (k, v) else p
  else d ++ [(k, v)]

/-- Python truthiness of an optional string (`if file_name:` /
`if basename:`): `None` and `""` are falsy. -/
def pyTruthy : Option String → Bool
  | none => false
  | some s => if s = "" then false else true

/-- Python `'|'.join(parts)` (from `save_state` and `get_current_status`). -/
def pyJoin : List String → String
  | [] => ""
  | [s] => s
  | s :: rest => s ++ "|" ++ pyJoin rest

/-- Python `str.split('|')` at the character-list level: split on every
occurrence of the separator; the empty string yields `[[]]`. -/
def splitOnPipe : List Char → List (List Char)
  | [] => [[]]
  | c :: cs =>
    match splitOnPipe cs with
    | [] => [[]]
    | r :: rs => if c = '|' then [] :: r :: rs else (c :: r) :: rs

/-- Python `k.split('|')` (from `load_state`). -/
def pySplit (s : String) : List String :=
  (splitOnPipe s.data).map fun l => String.mk l

/-- Characters of `name.rsplit('.', 1)[0]`: everything before the last `'.'`,
or the whole list when no `'.'` occurs. -/
def rsplitDotAux (cs : List Char) : List Char :=
  match cs.reverse.dropWhile (fun c => decide (c ≠ '.')) with
  | [] => cs
  | _ :: rest => rest.reverse

/-- Python `file_name.rsplit('.', 1)[0]` (from
`extract_primary_file_basename`): strip the final extension segment. -/
def pyRsplitDot (s : String) : String := String.mk (rsplitDotAux s.data)

/-- The static `ingest_id_map` from `VideoRecorderMonitor.__init__`. -/
def ingest_id_map : List (String × String) :=
  [("9C64992CFF3A4A3FA3C635BB7D9B6071", "PCR 1"),
   ("9526F8488B06423C8C81B942B3D04B89", "PCR 2"),
   ("69774E0644F94C89A87785972AB7057A", "PCR 3"),
   ("53994615DC194483B753424DAD50EFE5", "PCR 4")]

/-- The static `logical_name_to_dvr_source_id` map from `__init__`. -/
def logical_name_to_dvr_source_id : List (String × Nat) :=
  [("PCR 1", 0), ("PCR 2", 1), ("PCR 3", 2), ("PCR 4", 3)]

/-- One entry of the `data` list in a job's file listing; `presetTag` and
`fileName` are read with `.get`, so either may be absent. -/
structure FileEntry where
  presetTag : Option String
  fileName : Option String
deriving DecidableEq

/-- Outcome of the GET in `get_files_info`: a network/HTTP failure, a body
that is not decodable JSON, a decodable body that is not a dict, or a dict
whose `data` entry (defaulted to `[]` by `files_info.get('data', [])`) holds
the file entries. -/
inductive FilesResult
  | netFail
  | badJson
  | notADict
  | ok (data : List FileEntry)
deriving DecidableEq

/-- `get_files_info`: every failure branch returns the empty dict `{}`, whose
`data` defaults to `[]`; the success branch returns the dict, read here as
its `data` list. -/
def get_files_info : FilesResult → List FileEntry
  | .ok data => data
  | _ => []

/-- The loop condition in `extract_primary_file_basename`: the entry is
tagged `'Primary'` and its `fileName` is truthy. -/
def qualifies (f : FileEntry) : Bool :=
  decide (f.presetTag = some "Primary") && pyTruthy f.fileName

/-- `extract_primary_file_basename`: scan `data` in order; on the first entry
tagged `'Primary'` whose `fileName` is truthy, return the name with its final
extension stripped; otherwise `None`. -/
def extract_primary_file_basename : List FileEntry → Option String
  | [] => none
  | f :: rest =>
    if f.presetTag = some "Primary" then
      match f.fileName with
      | some name => if name = "" then extract_primary_file_basename rest
                     else some (pyRsplitDot name)
      | none => extract_primary_file_basename rest
    else extract_primary_file_basename rest

/-- The per-(ingest, job) network environment for file listings: what the
GET in `get_files_info` returns for each pair of identifiers. -/
abbrev FilesOracle := String → String → FilesResult

/-- `extract_basename`: fetch the file listing and extract the primary
file's basename. -/
def extract_basename (o : FilesOracle) (ingest_id job_id : String) : Option String :=
  extract_primary_file_basename (get_files_info (o ingest_id job_id))

/-- One ingest entry of the active-jobs payload: its `ingestId` and the job
ids of its `activeJobsInfo` list (each job entry is read only for its
`id`). -/
structure Ingest where
  ingestId : String
  activeJobsInfo : List String
deriving DecidableEq

/-- Outcome of the GET in `get_active_jobs_info`. -/
inductive FetchResult
  | netFail
  | badJson
  | notAList
  | ok (data : List Ingest)
deriving DecidableEq

/-- `get_active_jobs_info`: returns the payload list on success and `[]` on
every failure branch (network error, undecodable JSON, non-list payload). -/
def get_active_jobs_info : FetchResult → List Ingest
  | .ok data => data
  | _ => []

/-- Whether a fetch outcome is one of the failure branches. -/
def isFetchFailure : FetchResult → Bool
  | .ok _ => false
  | _ => true

/-- One iteration of the job loop of `process_polling_cycle`: insert the job
when its extracted basename is truthy (`if basename:`), otherwise leave the
dict unchanged. -/
def insertJob (o : FilesOracle) (ingest_id logical_name job_id : String)
    (acc : ActiveJobSet) : ActiveJobSet :=
  match extract_basename o ingest_id job_id with
  | some b => if b = "" then acc
              else dictInsert [ingest_id, job_id] ⟨b, logical_name⟩ acc
  | none => acc

/-- The inner loop of `process_polling_cycle` for one ingest. -/
def insertJobs (o : FilesOracle) (ingest_id logical_name : String) :
    List String → ActiveJobSet → ActiveJobSet
  | [], acc => acc
  | job_id :: rest, acc =>
    insertJobs o ingest_id logical_name rest (insertJob o ingest_id logical_name job_id acc)

/-- The `current_active_jobs` construction loop of `process_polling_cycle`:
for each ingest, resolve `logical_name = ingest_id_map.get(ingestId,
"Unknown Ingest")` and insert its jobs. -/
def buildCurrent (o : FilesOracle) : List Ingest → ActiveJobSet → ActiveJobSet
  | [], acc => acc
  | ing :: rest, acc =>
    buildCurrent o rest
      (insertJobs o ing.ingestId (lookupD ing.ingestId ingest_id_map "Unknown Ingest")
        ing.activeJobsInfo acc)

/-- `new_jobs = set(current.keys()) - set(previous.keys())`. -/
def newJobs (current previous : ActiveJobSet) : List JobKey :=
  (keys current).filter fun k => decide (¬ k ∈ keys previous)

/-- `stopped_jobs = set(previous.keys()) - set(current.keys())`. -/
def stoppedJobs (current previous : ActiveJobSet) : List JobKey :=
  (keys previous).filter fun k => decide (¬ k ∈ keys current)

/-- A recorder-level action requested by the cycle: the arguments passed to
`start_secondary_recording` / `stop_secondary_recording`. -/
inductive Invocation
  | startRec (basename logical_name : String)
  | stopRec (basename logical_name : String)
deriving DecidableEq

/-- Result of one polling cycle: the recorder invocations it issues, and the
`previous_active_jobs` dict as updated (and then saved) at the end. -/
structure CycleResult where
  invocations : List Invocation
  state : ActiveJobSet
deriving DecidableEq

/-- `process_polling_cycle`: fetch the active jobs, build the current set,
start every new job with its current record, stop every vanished job with
the record stored in the previous cycle's state, and replace the state with
the current set. -/
def process_polling_cycle (o : FilesOracle) (fetch : FetchResult)
    (previous : ActiveJobSet) : CycleResult :=
  let active := get_active_jobs_info fetch
  let current := buildCurrent o active []
  let startInvs := (newJobs current previous).filterMap fun k =>
    (lookupKey k current).map fun r => Invocation.startRec r.basename r.logical_name
  let stopInvs := (stoppedJobs current previous).filterMap fun k =>
    (lookupKey k previous).map fun r => Invocation.stopRec r.basename r.logical_name
  ⟨startInvs ++ stopInvs, current⟩

/-- Content of the state file as `load_state` can encounter it: absent,
unreadable (`IOError`/`PermissionError`), undecodable JSON, decodable but not
a dict, or a dict from joined keys to job records. -/
inductive StateFileContent
  | missing
  | unreadable
  | badJson
  | notADict
  | valid (d : List (String × JobRecord))

/-- `load_state`: every failure branch yields the empty dict; a valid dict
has each key split back into a tuple with `tuple(k.split('|'))`. -/
def load_state : StateFileContent → ActiveJobSet
  | .valid d => d.map fun p => (pySplit p.1, p.2)
  | _ => []

/-- `save_state`: the dict written to the state file, with each tuple key
joined by `'|'.join(k)` (JSON serialization of a string-keyed dict is
modelled as the identity). -/
def save_state (s : ActiveJobSet) : List (String × JobRecord) :=
  s.map fun p => (pyJoin p.1, p.2)

/-- `get_current_status`: the status surface returned by the `/status`
endpoint — the current state with keys joined by `'|'.join(k)`. -/
def get_current_status (s : ActiveJobSet) : List (String × JobRecord) :=
  s.map fun p => (pyJoin p.1, p.2)

/-- The DVR's per-source `is_recording` flags (the `/sources` list);
`none` models an entry without an `is_recording` key, read with
`source.get('is_recording', False)`. -/
abbrev DvrWorld := List (Option Bool)

/-- Outcome of the GET in `is_dvr_recording`: network failure, undecodable
JSON, a non-list payload, or the sources list. -/
inductive SourcesResult
  | netFail
  | badJson
  | notAList
  | ok (sources : DvrWorld)
deriving DecidableEq

/-- `is_dvr_recording`: on a well-formed sources list with the id in range,
the entry's `is_recording` flag (defaulting to `False`); every other branch
returns `False`. -/
def is_dvr_recording (res : SourcesResult) (dvr_source_id : Nat) : Bool :=
  match res with
  | .ok sources =>
    if h : dvr_source_id < sources.length then (sources.get ⟨dvr_source_id, h⟩).getD false
    else false
  | _ => false

/-- An HTTP call issued to the DVR. -/
inductive DvrCall
  | getSources
  | putName (id : Nat) (name : String)
  | getRecord (id : Nat)
  | getStop (id : Nat)
deriving DecidableEq

/-- Modelled from the spec: the DVR's `GET /sources/{id}/record` endpoint
starts recording on that source, so its `is_recording` flag becomes true.
The DVR itself is an external collaborator, not code under `src/`. -/
def applyRecord (w : DvrWorld) (id : Nat) : DvrWorld := w.set id (some true)

/-- Modelled from the spec: the DVR's `GET /sources/{id}/stop` endpoint
stops recording on that source. -/
def applyStop (w : DvrWorld) (id : Nat) : DvrWorld := w.set id (some false)

/-- `start_secondary_recording`: resolve the logical name (unmapped names
return with no call); query recording status; if already recording, return;
otherwise PUT the recording name (`putOk` is the outcome of that request) and,
only if the PUT succeeded, GET the record action (`recordOk` its outcome).
Returns the DVR calls issued and the DVR world afterwards. -/
def start_secondary_recording (res : SourcesResult) (putOk recordOk : Bool)
    (w : DvrWorld) (basename logical_name : String) : List DvrCall × DvrWorld :=
  match lookupKey logical_name logical_name_to_dvr_source_id with
  | none => ([], w)
  | some id =>
    if is_dvr_recording res id then ([DvrCall.getSources], w)
    else if putOk then
      if recordOk then
        ([DvrCall.getSources, DvrCall.putName id basename, DvrCall.getRecord id],
         applyRecord w id)
      else
        ([DvrCall.getSources, DvrCall.putName id basename, DvrCall.getRecord id], w)
    else ([DvrCall.getSources, DvrCall.putName id basename], w)

/-- `stop_secondary_recording`: resolve the logical name (unmapped names
return with no call); query recording status; if not recording, return;
otherwise GET the stop action (`stopOk` its outcome). The `basename`
argument is accepted but, as in the source, used only for logging. -/
def stop_secondary_recording (res : SourcesResult) (stopOk : Bool)
    (w : DvrWorld) (basename logical_name : String) : List DvrCall × DvrWorld :=
  match lookupKey logical_name logical_name_to_dvr_source_id with
  | none => ([], w)
  | some id =>
    if is_dvr_recording res id then
      if stopOk then ([DvrCall.getSources, DvrCall.getStop id], applyStop w id)
      else ([DvrCall.getSources, DvrCall.getStop id], w)
    else ([DvrCall.getSources], w)

/-- Whether a DVR call is the start-record GET. -/
def isRecordCall : DvrCall → Bool
  | .getRecord _ => true
  | _ => false

/-- Number of underlying start calls in a call trace. -/
def countRecord (calls : List DvrCall) : Nat := calls.countP isRecordCall

/-- Fixture: a file-listing environment whose every GET fails. -/
def oracleFail : FilesOracle := fun _ _ => FilesResult.netFail

/-- Fixture: a file-listing environment answering one primary file. -/
def oraclePrimary : FilesOracle :=
  fun _ _ => FilesResult.ok [⟨some "Primary", some "show_20240101.mp4"⟩]

/-- Fixture: a previous state holding one job. -/
def prevOne : ActiveJobSet := [(["A", "1"], ⟨"base", "PCR 1"⟩)]

/-- Fixture: a DVR with four idle sources. -/
def dvrIdle : DvrWorld := [some false, some false, some false, some false]

/-! ## Helper lemmas about the dict operations -/

theorem lookupKey_mem {α β : Type} [DecidableEq α] {k : α} {v : β} :
    ∀ {d : List (α × β)}, lookupKey k d = some v → (k, v) ∈ d := by
  intro d
  induction d with
  | nil => intro h; simp [lookupKey] at h
  | cons p rest ih =>
    intro h
    rw [lookupKey] at h
    by_cases hp : p.1 = k
    · rw [if_pos hp] at h
      have hv := Option.some.inj h
      exact List.mem_cons.mpr (Or.inl (by rw [← hp, ← hv]))
    · rw [if_neg hp] at h
      exact List.mem_cons.mpr (Or.inr (ih h))

theorem mem_keys_lookupKey {α β : Type} [DecidableEq α] {k : α} :
    ∀ {d : List (α × β)}, k ∈ keys d → ∃ v, lookupKey k d = some v := by
  intro d
  induction d with
  | nil => intro h; simp [keys] at h
  | cons p rest ih =>
    intro h
    by_cases hp : p.1 = k
    · exact ⟨p.2, by rw [lookupKey, if_pos hp]⟩
    · have : k ∈ keys rest := by
        rcases List.mem_cons.mp h with h1 | h1
        · exact absurd h1.symm hp
        · exact h1
      obtain ⟨v, hv⟩ := ih this
      exact ⟨v, by rw [lookupKey, if_neg hp]; exact hv⟩

theorem containsKey_iff {α β : Type} [DecidableEq α] {k : α} {d : List (α × β)} :
    containsKey k d = true ↔ k ∈ keys d := by
  simp only [containsKey, List.any_eq_true, decide_eq_true_eq, keys, List.mem_map]

theorem mem_dictInsert {k : JobKey} {v : JobRecord} {d : ActiveJobSet}
    {p : JobKey × JobRecord} (h : p ∈ dictInsert k v d) : p ∈ d ∨ p = (k, v) := by
  unfold dictInsert at h
  split at h
  · obtain ⟨q, hq, hqe⟩ := List.mem_map.mp h
    by_cases hqk : q.1 = k
    · rw [if_pos hqk] at hqe
      exact Or.inr hqe.symm
    · rw [if_neg hqk] at hqe
      exact Or.inl (hqe ▸ hq)
  · rcases List.mem_append.mp h with h1 | h2
    · exact Or.inl h1
    · exact Or.inr (by simpa using h2)

theorem mem_keys_dictInsert {k x : JobKey} {v : JobRecord} {d : ActiveJobSet} :
    x ∈ keys (dictInsert k v d) ↔ x ∈ keys d ∨ x = k := by
  unfold dictInsert
  by_cases hc : containsKey k d = true
  · rw [if_pos hc]
    have hkeys : keys (d.map fun q => if q.1 = k then (k, v) else q) = keys d := by
      unfold keys
      rw [List.map_map]
      apply List.map_congr_left
      intro q _
      by_cases hqk : q.1 = k <;> simp [Function.comp, hqk]
    rw [hkeys]
    constructor
    · exact Or.inl
    · rintro (h | rfl)
      · exact h
      · exact containsKey_iff.mp hc
  · rw [if_neg hc]
    unfold keys
    rw [List.map_append, List.map_cons, List.map_nil, List.mem_append, List.mem_singleton]

/-! ## Helper lemmas about the Python string operations -/

theorem splitOnPipe_ne_nil (cs : List Char) : splitOnPipe cs ≠ [] := by
  induction cs with
  | nil => simp [splitOnPipe]
  | cons c cs ih =>
    rw [splitOnPipe]
    cases h : splitOnPipe cs with
    | nil => simp
    | cons r rs => by_cases hc : c = '|' <;> simp [hc]

theorem splitOnPipe_no_pipe : ∀ {cs : List Char}, ¬ '|' ∈ cs → splitOnPipe cs = [cs] := by
  intro cs
  induction cs with
  | nil => intro _; rfl
  | cons c cs ih =>
    intro h
    have hc : ¬ c = '|' := by rintro rfl; exact h (List.mem_cons_self _ _)
    have hcs : ¬ '|' ∈ cs := fun hm => h (List.mem_cons_of_mem _ hm)
    rw [splitOnPipe, ih hcs]
    simp [hc]

theorem splitOnPipe_append : ∀ {xs ys : List Char}, ¬ '|' ∈ xs →
    splitOnPipe (xs ++ '|' :: ys) = xs :: splitOnPipe ys := by
  intro xs ys
  induction xs with
  | nil =>
    intro _
    simp only [List.nil_append]
    rw [splitOnPipe]
    cases hy : splitOnPipe ys with
    | nil => exact absurd hy (splitOnPipe_ne_nil ys)
    | cons r rs => simp
  | cons c cs ih =>
    intro h
    have hc : ¬ c = '|' := by rintro rfl; exact h (List.mem_cons_self _ _)
    have hcs : ¬ '|' ∈ cs := fun hm => h (List.mem_cons_of_mem _ hm)
    simp only [List.cons_append]
    rw [splitOnPipe, ih hcs]
    simp [hc]

theorem pyJoin_pair (a b : String) : pyJoin [a, b] = a ++ "|" ++ b := rfl

theorem data_join_pair (a b : String) :
    (pyJoin [a, b]).data = a.data ++ '|' :: b.data := by
  rw [pyJoin_pair, String.data_append, String.data_append]
  simp

theorem pySplit_pyJoin_pair {a b : String} (ha : ¬ '|' ∈ a.data)
    (hb : ¬ '|' ∈ b.data) : pySplit (pyJoin [a, b]) = [a, b] := by
  unfold pySplit
  rw [data_join_pair, splitOnPipe_append ha, splitOnPipe_no_pipe hb]
  rfl

theorem dropWhile_eq_nil_of_forall {p : Char → Bool} :
    ∀ {l : List Char}, (∀ x ∈ l, p x = true) → l.dropWhile p = [] := by
  intro l
  induction l with
  | nil => intro _; rfl
  | cons c cs ih =>
    intro h
    rw [List.dropWhile_cons_of_pos (h c (List.mem_cons_self _ _))]
    exact ih fun x hx => h x (List.mem_cons_of_mem _ hx)

theorem rsplitDotAux_no_dot {cs : List Char} (h : ¬ '.' ∈ cs) : rsplitDotAux cs = cs := by
  unfold rsplitDotAux
  have hnil : cs.reverse.dropWhile (fun c => decide (c ≠ '.')) = [] := by
    apply dropWhile_eq_nil_of_forall
    intro x hx
    have hxc : x ∈ cs := List.mem_reverse.mp hx
    simp only [decide_eq_true_eq]
    rintro rfl
    exact h hxc
  rw [hnil]

theorem rsplitDotAux_strip {xs ys : List Char} (h : ¬ '.' ∈ ys) :
    rsplitDotAux (xs ++ '.' :: ys) = xs := by
  unfold rsplitDotAux
  have h1 : (xs ++ '.' :: ys).reverse = ys.reverse ++ '.' :: xs.reverse := by
    simp
  rw [h1]
  have h2 : (ys.reverse ++ '.' :: xs.reverse).dropWhile (fun c => decide (c ≠ '.')) =
      ('.' :: xs.reverse).dropWhile (fun c => decide (c ≠ '.')) := by
    apply List.dropWhile_append_of_pos
    intro x hx
    have hxc : x ∈ ys := List.mem_reverse.mp hx
    simp only [decide_eq_true_eq]
    rintro rfl
    exact h hxc
  rw [h2, List.dropWhile_cons_of_neg (by simp)]
  simp

theorem pyRsplitDot_no_dot {s : String} (h : ¬ '.' ∈ s.data) : pyRsplitDot s = s := by
  unfold pyRsplitDot
  rw [rsplitDotAux_no_dot h]

theorem pyRsplitDot_strip {stem ext : String} (h : ¬ '.' ∈ ext.data) :
    pyRsplitDot (stem ++ "." ++ ext) = stem := by
  unfold pyRsplitDot
  have hd : (stem ++ "." ++ ext).data = stem.data ++ '.' :: ext.data := by
    rw [String.data_append, String.data_append]
    simp
  rw [hd, rsplitDotAux_strip h]

theorem pyTruthy_iff {x : Option String} : pyTruthy x = true ↔ ∃ b, x = some b ∧ b ≠ "" := by
  cases x with
  | none => simp [pyTruthy]
  | some s => by_cases h : s = "" <;> simp [pyTruthy, h]

/-! ## The extraction loop as a first match -/

theorem extract_eq_find (files : List FileEntry) :
    extract_primary_file_basename files =
      (List.find? qualifies files).map fun f => pyRsplitDot (f.fileName.getD "") := by
  induction files with
  | nil => rfl
  | cons f rest ih =>
    rw [extract_primary_file_basename]
    by_cases hp : f.presetTag = some "Primary"
    · rw [if_pos hp]
      cases hn : f.fileName with
      | none =>
        have hq : ¬ qualifies f = true := by simp [qualifies, pyTruthy, hn]
        rw [List.find?_cons_of_neg _ hq]
        exact ih
      | some name =>
        change (if name = "" then extract_primary_file_basename rest
            else some (pyRsplitDot name)) = _
        by_cases he : name = ""
        · rw [if_pos he]
          have hq : ¬ qualifies f = true := by simp [qualifies, pyTruthy, hn, he]
          rw [List.find?_cons_of_neg _ hq]
          exact ih
        · rw [if_neg he]
          have hq : qualifies f = true := by simp [qualifies, pyTruthy, hn, hp, he]
          rw [List.find?_cons_of_pos _ hq]
          simp [hn]
    · rw [if_neg hp]
      have hq : ¬ qualifies f = true := by simp [qualifies, hp]
      rw [List.find?_cons_of_neg _ hq]
      exact ih

/-! ## Invariants of the current-set construction -/

theorem insertJob_of_none {o : FilesOracle} {i ln j : String} {acc : ActiveJobSet}
    (hE : extract_basename o i j = none) : insertJob o i ln j acc = acc := by
  unfold insertJob
  rw [hE]

theorem insertJob_of_empty {o : FilesOracle} {i ln j b : String} {acc : ActiveJobSet}
    (hE : extract_basename o i j = some b) (hb : b = "") :
    insertJob o i ln j acc = acc := by
  unfold insertJob
  rw [hE]
  change (if b = "" then acc else dictInsert [i, j] ⟨b, ln⟩ acc) = acc
  rw [if_pos hb]

theorem insertJob_of_some {o : FilesOracle} {i ln j b : String} {acc : ActiveJobSet}
    (hE : extract_basename o i j = some b) (hb : b ≠ "") :
    insertJob o i ln j acc = dictInsert [i, j] ⟨b, ln⟩ acc := by
  unfold insertJob
  rw [hE]
  change (if b = "" then acc else dictInsert [i, j] ⟨b, ln⟩ acc) = _
  rw [if_neg hb]

theorem insertJob_cases {o : FilesOracle} {i ln j : String} {acc : ActiveJobSet}
    {p : JobKey × JobRecord} (h : p ∈ insertJob o i ln j acc) :
    p ∈ acc ∨ (p.1 = [i, j] ∧ extract_basename o i j = some p.2.basename ∧
      p.2.basename ≠ "" ∧ p.2.logical_name = ln) := by
  cases hE : extract_basename o i j with
  | none =>
    rw [insertJob_of_none hE] at h
    exact Or.inl h
  | some b =>
    by_cases hb : b = ""
    · rw [insertJob_of_empty hE hb] at h
      exact Or.inl h
    · rw [insertJob_of_some hE hb] at h
      rcases mem_dictInsert h with h3 | h3
      · exact Or.inl h3
      · refine Or.inr ⟨?_, ?_, ?_, ?_⟩ <;> rw [h3] <;> simp [hE, hb]

theorem insertJobs_sound {o : FilesOracle} {i ln : String} :
    ∀ {jobs : List String} {acc : ActiveJobSet} {p : JobKey × JobRecord},
      p ∈ insertJobs o i ln jobs acc →
      p ∈ acc ∨ ∃ j, p.1 = [i, j] ∧ extract_basename o i j = some p.2.basename ∧
        p.2.basename ≠ "" ∧ p.2.logical_name = ln := by
  intro jobs
  induction jobs with
  | nil => intro acc p h; exact Or.inl h
  | cons j rest ih =>
    intro acc p h
    rw [insertJobs] at h
    rcases ih h with h2 | h2
    · rcases insertJob_cases h2 with h3 | h3
      · exact Or.inl h3
      · exact Or.inr ⟨j, h3⟩
    · exact Or.inr h2

theorem buildCurrent_sound {o : FilesOracle} :
    ∀ {l : List Ingest} {acc : ActiveJobSet} {p : JobKey × JobRecord},
      p ∈ buildCurrent o l acc →
      p ∈ acc ∨ ∃ i j, p.1 = [i, j] ∧ extract_basename o i j = some p.2.basename ∧
        p.2.basename ≠ "" ∧
        p.2.logical_name = lookupD i ingest_id_map "Unknown Ingest" := by
  intro l
  induction l with
  | nil => intro acc p h; exact Or.inl h
  | cons ing rest ih =>
    intro acc p h
    rw [buildCurrent] at h
    rcases ih h with h2 | h2
    · rcases insertJobs_sound h2 with h3 | ⟨j, hj⟩
      · exact Or.inl h3
      · exact Or.inr ⟨ing.ingestId, j, hj⟩
    · exact Or.inr h2

theorem insertJobs_keys_mono {o : FilesOracle} {i ln : String} :
    ∀ {jobs : List String} {acc : ActiveJobSet} {x : JobKey},
      x ∈ keys acc → x ∈ keys (insertJobs o i ln jobs acc) := by
  intro jobs
  induction jobs with
  | nil => intro acc x h; exact h
  | cons j rest ih =>
    intro acc x h
    rw [insertJobs]
    apply ih
    cases hE : extract_basename o i j with
    | none => rw [insertJob_of_none hE]; exact h
    | some b =>
      by_cases hb : b = ""
      · rw [insertJob_of_empty hE hb]; exact h
      · rw [insertJob_of_some hE hb]; exact mem_keys_dictInsert.mpr (Or.inl h)

theorem insertJobs_complete {o : FilesOracle} {i ln : String} :
    ∀ {jobs : List String} {acc : ActiveJobSet} {j b : String},
      j ∈ jobs → extract_basename o i j = some b → b ≠ "" →
      [i, j] ∈ keys (insertJobs o i ln jobs acc) := by
  intro jobs
  induction jobs with
  | nil => intro acc j b h; exact absurd h (List.not_mem_nil j)
  | cons j0 rest ih =>
    intro acc j b hj hE hb
    rw [insertJobs]
    rcases List.mem_cons.mp hj with rfl | hjr
    · apply insertJobs_keys_mono
      rw [insertJob_of_some hE hb]
      exact mem_keys_dictInsert.mpr (Or.inr rfl)
    · exact ih hjr hE hb

theorem buildCurrent_keys_mono {o : FilesOracle} :
    ∀ {l : List Ingest} {acc : ActiveJobSet} {x : JobKey},
      x ∈ keys acc → x ∈ keys (buildCurrent o l acc) := by
  intro l
  induction l with
  | nil => intro acc x h; exact h
  | cons ing rest ih =>
    intro acc x h
    rw [buildCurrent]
    exact ih (insertJobs_keys_mono h)

theorem buildCurrent_complete {o : FilesOracle} {ing : Ingest} {j b : String}
    (hj : j ∈ ing.activeJobsInfo) (hE : extract_basename o ing.ingestId j = some b)
    (hb : b ≠ "") :
    ∀ {l : List Ingest} (acc : ActiveJobSet), ing ∈ l →
      [ing.ingestId, j] ∈ keys (buildCurrent o l acc) := by
  intro l
  induction l with
  | nil => intro acc h; exact absurd h (List.not_mem_nil ing)
  | cons ing0 rest ih =>
    intro acc hing
    rw [buildCurrent]
    rcases List.mem_cons.mp hing with rfl | hr
    · exact buildCurrent_keys_mono (insertJobs_complete hj hE hb)
    · exact ih _ hr

theorem extract_none_excluded {o : FilesOracle} {i j : String} {l : List Ingest}
    (hE : extract_basename o i j = none) : ¬ [i, j] ∈ keys (buildCurrent o l []) := by
  intro hmem
  obtain ⟨p, hp, hpe⟩ := List.mem_map.mp hmem
  rcases buildCurrent_sound hp with h | ⟨i2, j2, h1, h2, _, _⟩
  · exact absurd h (List.not_mem_nil p)
  · rw [hpe] at h1
    obtain ⟨rfl, rfl⟩ : i = i2 ∧ j = j2 := by
      have hh := List.cons.inj h1
      have ht := List.cons.inj hh.2
      exact ⟨hh.1, ht.1⟩
    rw [hE] at h2
    exact Option.noConfusion h2

theorem lookup_buildCurrent {o : FilesOracle} {l : List Ingest} {ing : Ingest}
    {j b : String} (hing : ing ∈ l) (hj : j ∈ ing.activeJobsInfo)
    (hE : extract_basename o ing.ingestId j = some b) (hb : b ≠ "") :
    ∃ r, lookupKey [ing.ingestId, j] (buildCurrent o l []) = some r ∧
      r.basename = b ∧
      r.logical_name = lookupD ing.ingestId ingest_id_map "Unknown Ingest" := by
  have hk := buildCurrent_complete hj hE hb [] hing
  obtain ⟨r, hr⟩ := mem_keys_lookupKey hk
  have hmem := lookupKey_mem hr
  rcases buildCurrent_sound hmem with h | ⟨i2, j2, h1, h2, _, h4⟩
  · exact absurd h (List.not_mem_nil _)
  · obtain ⟨rfl, rfl⟩ : ing.ingestId = i2 ∧ j = j2 := by
      have hh := List.cons.inj h1
      have ht := List.cons.inj hh.2
      exact ⟨hh.1, ht.1⟩
    rw [hE] at h2
    exact ⟨r, hr, (Option.some.inj h2).symm, h4⟩

/-! ## Claim theorems -/

/-- C10: when a job's file listing contains more than one file tagged as
primary, basename extraction deterministically returns the basename of the
first primary-tagged entry (in list order) that has a non-empty `fileName`,
skipping primary-tagged entries whose `fileName` is missing or empty:
`extract_primary_file_basename` equals the stripped name of the first entry
satisfying `qualifies` (primary tag and truthy name). -/
theorem extract_first_qualifying (files : List FileEntry) :
    extract_primary_file_basename files =
      (List.find? qualifies files).map fun f => pyRsplitDot (f.fileName.getD "") :=
  extract_eq_find files

/-- C5: basename extraction returns the primary-tagged file's name with the
final extension segment stripped (split on the last dot; a name with no dot
is returned unchanged); when no primary file is found the result is `none`,
and such a job is excluded from the ActiveJobSet built by the cycle rather
than causing an error. -/
theorem extract_primary_spec :
    (∀ (files : List FileEntry) (f : FileEntry) (nm : String),
        List.find? qualifies files = some f → f.fileName = some nm →
        extract_primary_file_basename files = some (pyRsplitDot nm)) ∧
    (∀ files : List FileEntry, (∀ f ∈ files, ¬ qualifies f = true) →
        extract_primary_file_basename files = none) ∧
    (∀ s : String, ¬ '.' ∈ s.data → pyRsplitDot s = s) ∧
    (∀ stem ext : String, ¬ '.' ∈ ext.data → pyRsplitDot (stem ++ "." ++ ext) = stem) ∧
    (∀ (o : FilesOracle) (i j : String) (l : List Ingest),
        extract_basename o i j = none → ¬ [i, j] ∈ keys (buildCurrent o l [])) := by
  refine ⟨?_, ?_, fun s h => pyRsplitDot_no_dot h,
    fun stem ext h => pyRsplitDot_strip h, fun o i j l h => extract_none_excluded h⟩
  · intro files f nm hfind hnm
    rw [extract_eq_find, hfind]
    simp [hnm]
  · intro files hall
    rw [extract_eq_find, List.find?_eq_none.mpr hall]
    rfl

/-- C5 witness: concrete instances of each part of `extract_primary_spec`. -/
theorem extract_primary_spec_witness :
    extract_primary_file_basename [⟨some "Primary", some "show_20240101.mp4"⟩] =
      some (pyRsplitDot "show_20240101.mp4") ∧
    extract_primary_file_basename [⟨some "Other", some "x.mp4"⟩] = none ∧
    pyRsplitDot "noext" = "noext" ∧
    pyRsplitDot ("show_20240101" ++ "." ++ "mp4") = "show_20240101" ∧
    ¬ ["X", "1"] ∈ keys (buildCurrent oracleFail [⟨"X", ["1"]⟩] []) :=
  ⟨extract_primary_spec.1 [⟨some "Primary", some "show_20240101.mp4"⟩]
      ⟨some "Primary", some "show_20240101.mp4"⟩ "show_20240101.mp4" (by decide) rfl,
   extract_primary_spec.2.1 [⟨some "Other", some "x.mp4"⟩] (by decide),
   extract_primary_spec.2.2.1 "noext" (by decide),
   extract_primary_spec.2.2.2.1 "show_20240101" "mp4" (by decide),
   extract_primary_spec.2.2.2.2 oracleFail "X" "1" [⟨"X", ["1"]⟩] (by decide)⟩

/-- C3: saving an ActiveJobSet and loading it back returns the set exactly,
for every set whose keys are pairs of identifier strings that do not contain
the key-joining separator, including the empty set. -/
theorem load_save_roundtrip (S : ActiveJobSet)
    (hS : ∀ p ∈ S, p.1.length = 2 ∧ ∀ a ∈ p.1, ¬ '|' ∈ a.data) :
    load_state (StateFileContent.valid (save_state S)) = S := by
  induction S with
  | nil => rfl
  | cons p rest ih =>
    have hrest : ∀ q ∈ rest, q.1.length = 2 ∧ ∀ a ∈ q.1, ¬ '|' ∈ a.data :=
      fun q hq => hS q (List.mem_cons_of_mem _ hq)
    obtain ⟨hlen, hnp⟩ := hS p (List.mem_cons_self _ _)
    have ihr := ih hrest
    rcases p with ⟨k, r⟩
    rcases k with _ | ⟨a, k2⟩
    · simp at hlen
    rcases k2 with _ | ⟨b, k3⟩
    · simp at hlen
    rcases k3 with _ | ⟨c, k4⟩
    · have ha : ¬ '|' ∈ a.data := hnp a (by simp)
      have hb : ¬ '|' ∈ b.data := hnp b (by simp)
      simp only [load_state, save_state, List.map_cons] at ihr ⊢
      rw [pySplit_pyJoin_pair ha hb, ihr]
    · simp at hlen

/-- C3 witness: the round trip on a concrete one-job set. -/
theorem load_save_roundtrip_witness :
    load_state (StateFileContent.valid (save_state prevOne)) = prevOne :=
  load_save_roundtrip prevOne (by decide)

/-- C7: `load_state` fails open — a missing, unreadable, undecodable, or
non-dict state file yields the empty ActiveJobSet, and a cycle run from that
empty previous state treats every currently active job as new (its new-job
set is the whole current key set and its stopped-job set is empty). -/
theorem load_state_fail_open :
    load_state StateFileContent.missing = [] ∧
    load_state StateFileContent.unreadable = [] ∧
    load_state StateFileContent.badJson = [] ∧
    load_state StateFileContent.notADict = [] ∧
    (∀ (o : FilesOracle) (f : FetchResult),
        newJobs (process_polling_cycle o f (load_state StateFileContent.badJson)).state
            (load_state StateFileContent.badJson) =
          keys (process_polling_cycle o f (load_state StateFileContent.badJson)).state ∧
        stoppedJobs (process_polling_cycle o f (load_state StateFileContent.badJson)).state
            (load_state StateFileContent.badJson) = []) := by
  refine ⟨rfl, rfl, rfl, rfl, fun o f => ⟨?_, ?_⟩⟩
  · show newJobs _ ([] : ActiveJobSet) = _
    unfold newJobs
    apply List.filter_eq_self.mpr
    intro k _
    rfl
  · show stoppedJobs _ ([] : ActiveJobSet) = _
    unfold stoppedJobs
    rfl

/-- C1 counterexample: with one previously active job and a failed fetch of
the active-jobs list (network error), the cycle does NOT leave the stored
state unchanged — it empties the state, derives a stop command from the
failure, and changes the status surface. -/
theorem fetch_failure_mutates_state :
    (process_polling_cycle oracleFail FetchResult.netFail prevOne).state ≠ prevOne ∧
    Invocation.stopRec "base" "PCR 1" ∈
      (process_polling_cycle oracleFail FetchResult.netFail prevOne).invocations ∧
    get_current_status (process_polling_cycle oracleFail FetchResult.netFail prevOne).state ≠
      get_current_status prevOne := by
  refine ⟨by decide, by decide, by decide⟩

/-- C1 (amended): when the fetch of the active-jobs list fails (network
error, undecodable JSON, or non-list payload), `get_active_jobs_info`
returns the empty list, so the cycle conflates the failure with an empty
active-job set: the stored state becomes empty and a stop command is derived
for every previously active job, using its stored record. -/
theorem fetch_failure_conflated (o : FilesOracle) (f : FetchResult)
    (prev : ActiveJobSet) (hf : isFetchFailure f = true) :
    get_active_jobs_info f = [] ∧
    (process_polling_cycle o f prev).state = [] ∧
    ∀ k ∈ keys prev, ∃ r, lookupKey k prev = some r ∧
      Invocation.stopRec r.basename r.logical_name ∈
        (process_polling_cycle o f prev).invocations := by
  have hempty : get_active_jobs_info f = [] := by
    cases f <;> first | rfl | simp [isFetchFailure] at hf
  have hstate : (process_polling_cycle o f prev).state = [] := by
    simp only [process_polling_cycle, hempty]
    rfl
  refine ⟨hempty, hstate, ?_⟩
  intro k hk
  obtain ⟨r, hr⟩ := mem_keys_lookupKey hk
  refine ⟨r, hr, ?_⟩
  simp only [process_polling_cycle, hempty]
  rw [List.mem_append]
  right
  rw [List.mem_filterMap]
  refine ⟨k, ?_, by rw [hr]; rfl⟩
  unfold stoppedJobs
  rw [List.mem_filter]
  exact ⟨hk, rfl⟩

/-- C1 witness: the amended behaviour at a concrete failed fetch over a
one-job previous state. -/
theorem fetch_failure_conflated_witness :
    get_active_jobs_info FetchResult.netFail = [] ∧
    (process_polling_cycle oracleFail FetchResult.netFail prevOne).state = [] ∧
    ∀ k ∈ keys prevOne, ∃ r, lookupKey k prevOne = some r ∧
      Invocation.stopRec r.basename r.logical_name ∈
        (process_polling_cycle oracleFail FetchResult.netFail prevOne).invocations :=
  fetch_failure_conflated oracleFail FetchResult.netFail prevOne (by decide)

/-- C2: in every cycle the new-job and stopped-job key sets are the set
differences of the current and previous key sets, no key lies in both, and
the stored key set after the cycle is exactly
`previousKeys ∪ newJobs − stoppedJobs`, which is the current key set. -/
theorem cycle_key_algebra (o : FilesOracle) (f : FetchResult) (prev : ActiveJobSet) :
    (process_polling_cycle o f prev).state =
      buildCurrent o (get_active_jobs_info f) [] ∧
    (∀ k, k ∈ newJobs (process_polling_cycle o f prev).state prev →
        ¬ k ∈ stoppedJobs (process_polling_cycle o f prev).state prev) ∧
    (∀ k, k ∈ keys (process_polling_cycle o f prev).state ↔
        ((k ∈ keys prev ∨ k ∈ newJobs (process_polling_cycle o f prev).state prev) ∧
          ¬ k ∈ stoppedJobs (process_polling_cycle o f prev).state prev)) := by
  refine ⟨rfl, ?_, ?_⟩
  · intro k hk
    simp only [newJobs, List.mem_filter, decide_eq_true_eq] at hk
    simp only [stoppedJobs, List.mem_filter, decide_eq_true_eq]
    tauto
  · intro k
    simp only [newJobs, stoppedJobs, List.mem_filter, decide_eq_true_eq]
    tauto

/-- C2 witness: a key that is new in a concrete cycle is not stopped in it. -/
theorem cycle_key_algebra_witness :
    ¬ ["X", "1"] ∈ stoppedJobs
      (process_polling_cycle oraclePrimary (FetchResult.ok [⟨"X", ["1"]⟩]) []).state [] :=
  (cycle_key_algebra oraclePrimary (FetchResult.ok [⟨"X", ["1"]⟩]) []).2.1
    ["X", "1"] (by decide)

/-- C8: for every key in the stopped-job set, the cycle invokes
stop-recording with the previous cycle's stored basename and logical name
for that key (looked up in the previous state, not re-fetched), and
stop-recording itself no-ops (issuing only the status query) when the
resolved source is not currently recording. -/
theorem stopped_jobs_use_previous (o : FilesOracle) (f : FetchResult)
    (prev : ActiveJobSet) :
    (∀ k, k ∈ stoppedJobs (process_polling_cycle o f prev).state prev →
        ∃ r, lookupKey k prev = some r ∧
          Invocation.stopRec r.basename r.logical_name ∈
            (process_polling_cycle o f prev).invocations) ∧
    (∀ (res : SourcesResult) (stopOk : Bool) (w : DvrWorld) (b ln : String) (id : Nat),
        lookupKey ln logical_name_to_dvr_source_id = some id →
        is_dvr_recording res id = false →
        stop_secondary_recording res stopOk w b ln = ([DvrCall.getSources], w)) := by
  constructor
  · intro k hk
    have hkp : k ∈ keys prev := by
      simp only [stoppedJobs, List.mem_filter, decide_eq_true_eq] at hk
      exact hk.1
    obtain ⟨r, hr⟩ := mem_keys_lookupKey hkp
    refine ⟨r, hr, ?_⟩
    simp only [process_polling_cycle] at hk ⊢
    rw [List.mem_append]
    right
    rw [List.mem_filterMap]
    exact ⟨k, hk, by rw [hr]; rfl⟩
  · intro res stopOk w b ln id hmap hrec
    simp [stop_secondary_recording, hmap, hrec]

/-- C8 witness: a concrete cycle that stops the one previously active job,
and a concrete no-op stop against an idle recorder. -/
theorem stopped_jobs_use_previous_witness :
    (∃ r, lookupKey ["A", "1"] prevOne = some r ∧
        Invocation.stopRec r.basename r.logical_name ∈
          (process_polling_cycle oraclePrimary (FetchResult.ok []) prevOne).invocations) ∧
    stop_secondary_recording (SourcesResult.ok dvrIdle) true dvrIdle "rec" "PCR 1" =
      ([DvrCall.getSources], dvrIdle) :=
  ⟨(stopped_jobs_use_previous oraclePrimary (FetchResult.ok []) prevOne).1
      ["A", "1"] (by decide),
   (stopped_jobs_use_previous oraclePrimary (FetchResult.ok []) prevOne).2
      (SourcesResult.ok dvrIdle) true dvrIdle "rec" "PCR 1" 0 (by decide) (by decide)⟩

/-- C4: start-recording is idempotent against the recorder's live status.
Whenever the status check reports recording, the call issues neither the
set-name PUT nor the start GET (only the status query) and leaves the
recorder unchanged; consequently two consecutive starts for the same source
with no intervening stop — the second one seeing the recorder state produced
by the first — issue exactly one underlying start call. -/
theorem start_recording_idempotent (w : DvrWorld) (b ln : String) (id : Nat)
    (hmap : lookupKey ln logical_name_to_dvr_source_id = some id)
    (hlen : id < w.length)
    (hflag : is_dvr_recording (SourcesResult.ok w) id = false) :
    (∀ (res : SourcesResult) (w2 : DvrWorld) (b2 : String) (putOk recordOk : Bool),
        is_dvr_recording res id = true →
        start_secondary_recording res putOk recordOk w2 b2 ln =
          ([DvrCall.getSources], w2)) ∧
    start_secondary_recording (SourcesResult.ok w) true true w b ln =
      ([DvrCall.getSources, DvrCall.putName id b, DvrCall.getRecord id],
        applyRecord w id) ∧
    start_secondary_recording (SourcesResult.ok (applyRecord w id)) true true
        (applyRecord w id) b ln = ([DvrCall.getSources], applyRecord w id) ∧
    countRecord ((start_secondary_recording (SourcesResult.ok w) true true w b ln).1 ++
        (start_secondary_recording (SourcesResult.ok (applyRecord w id)) true true
          (applyRecord w id) b ln).1) = 1 := by
  have hrec : is_dvr_recording (SourcesResult.ok (applyRecord w id)) id = true := by
    unfold is_dvr_recording applyRecord
    have hlen2 : id < (w.set id (some true)).length := by
      rw [List.length_set]
      exact hlen
    show (if hh : id < (w.set id (some true)).length then
        ((w.set id (some true)).get ⟨id, hh⟩).getD false else false) = true
    rw [dif_pos hlen2, List.get_set_eq]
    rfl
  have h1 : start_secondary_recording (SourcesResult.ok w) true true w b ln =
      ([DvrCall.getSources, DvrCall.putName id b, DvrCall.getRecord id],
        applyRecord w id) := by
    simp [start_secondary_recording, hmap, hflag]
  have h2 : start_secondary_recording (SourcesResult.ok (applyRecord w id)) true true
      (applyRecord w id) b ln = ([DvrCall.getSources], applyRecord w id) := by
    simp [start_secondary_recording, hmap, hrec]
  refine ⟨?_, h1, h2, ?_⟩
  · intro res w2 b2 putOk recordOk hres
    simp [start_secondary_recording, hmap, hres]
  · rw [h1, h2]
    simp [countRecord, isRecordCall]

/-- C4 witness: two consecutive starts on an idle source 0 of a concrete
recorder issue exactly one start-record call. -/
theorem start_recording_idempotent_witness :
    countRecord
      ((start_secondary_recording (SourcesResult.ok dvrIdle) true true dvrIdle
          "rec" "PCR 1").1 ++
        (start_secondary_recording (SourcesResult.ok (applyRecord dvrIdle 0)) true true
          (applyRecord dvrIdle 0) "rec" "PCR 1").1) = 1 :=
  (start_recording_idempotent dvrIdle "rec" "PCR 1" 0 (by decide) (by decide)
    (by decide)).2.2.2

/-- C6: `is_dvr_recording` fails closed — it returns false on a network
error, a decode error, a wrong-shape (non-list) payload, and an out-of-range
source id; and within a start attempt whose status query failed, the start
proceeds past the check, and when the set-name PUT fails the start GET is
not attempted and the recorder is left unchanged. -/
theorem is_dvr_recording_fail_closed :
    (∀ id, is_dvr_recording SourcesResult.netFail id = false) ∧
    (∀ id, is_dvr_recording SourcesResult.badJson id = false) ∧
    (∀ id, is_dvr_recording SourcesResult.notAList id = false) ∧
    (∀ (sources : DvrWorld) (id : Nat), sources.length ≤ id →
        is_dvr_recording (SourcesResult.ok sources) id = false) ∧
    (∀ (w : DvrWorld) (b ln : String) (id : Nat) (recordOk : Bool),
        lookupKey ln logical_name_to_dvr_source_id = some id →
        start_secondary_recording SourcesResult.netFail false recordOk w b ln =
          ([DvrCall.getSources, DvrCall.putName id b], w)) := by
  refine ⟨fun id => rfl, fun id => rfl, fun id => rfl, ?_, ?_⟩
  · intro sources id h
    unfold is_dvr_recording
    show (if hh : id < sources.length then
        (sources.get ⟨id, hh⟩).getD false else false) = false
    rw [dif_neg (Nat.not_lt.mpr h)]
  · intro w b ln id recordOk hmap
    simp [start_secondary_recording, hmap, is_dvr_recording]

/-- C6 witness: fail-closed on an empty sources list at id 0, and a concrete
start attempt with failed status query and failed PUT that issues no
start-record GET. -/
theorem is_dvr_recording_fail_closed_witness :
    is_dvr_recording (SourcesResult.ok []) 0 = false ∧
    start_secondary_recording SourcesResult.netFail false true dvrIdle "rec" "PCR 1" =
      ([DvrCall.getSources, DvrCall.putName 0 "rec"], dvrIdle) :=
  ⟨is_dvr_recording_fail_closed.2.2.2.1 [] 0 (by decide),
   is_dvr_recording_fail_closed.2.2.2.2 dvrIdle "rec" "PCR 1" 0 true (by decide)⟩

/-- C9: a job whose ingestId has no entry in the static ingest-id map is
still included in the ActiveJobSet (when its basename extraction succeeds)
under the logical name "Unknown Ingest", appears in the persisted state and
on the status surface under its joined key, yet every start-recording or
stop-recording invocation for "Unknown Ingest" returns without issuing any
recorder call, since that name has no source-id mapping. -/
theorem unknown_ingest_handling (o : FilesOracle) (l : List Ingest) (ing : Ingest)
    (j b : String) (hing : ing ∈ l) (hj : j ∈ ing.activeJobsInfo)
    (hmap : lookupKey ing.ingestId ingest_id_map = none)
    (hE : extract_basename o ing.ingestId j = some b) (hb : b ≠ "") :
    (∀ prev : ActiveJobSet,
        (process_polling_cycle o (FetchResult.ok l) prev).state = buildCurrent o l []) ∧
    (∃ r, lookupKey [ing.ingestId, j] (buildCurrent o l []) = some r ∧
        r.basename = b ∧ r.logical_name = "Unknown Ingest" ∧
        (pyJoin [ing.ingestId, j], r) ∈ save_state (buildCurrent o l []) ∧
        (pyJoin [ing.ingestId, j], r) ∈ get_current_status (buildCurrent o l [])) ∧
    (∀ (res : SourcesResult) (putOk recordOk : Bool) (w : DvrWorld) (b2 : String),
        start_secondary_recording res putOk recordOk w b2 "Unknown Ingest" = ([], w)) ∧
    (∀ (res : SourcesResult) (stopOk : Bool) (w : DvrWorld) (b2 : String),
        stop_secondary_recording res stopOk w b2 "Unknown Ingest" = ([], w)) := by
  have hnone : lookupKey "Unknown Ingest" logical_name_to_dvr_source_id = none := by
    decide
  refine ⟨fun prev => rfl, ?_, ?_, ?_⟩
  · obtain ⟨r, hr, hrb, hrl⟩ := lookup_buildCurrent hing hj hE hb
    have hlook : lookupD ing.ingestId ingest_id_map "Unknown Ingest" = "Unknown Ingest" := by
      rw [lookupD, hmap]
      rfl
    refine ⟨r, hr, hrb, by rw [hrl, hlook], ?_, ?_⟩
    · exact List.mem_map.mpr ⟨([ing.ingestId, j], r), lookupKey_mem hr, rfl⟩
    · exact List.mem_map.mpr ⟨([ing.ingestId, j], r), lookupKey_mem hr, rfl⟩
  · intro res putOk recordOk w b2
    simp [start_secondary_recording, hnone]
  · intro res stopOk w b2
    simp [stop_secondary_recording, hnone]

/-- C9 witness: a concrete unmapped ingest "X" whose job is included under
"Unknown Ingest" and surfaced, while its start invocation is a no-op. -/
theorem unknown_ingest_handling_witness :
    (∃ r, lookupKey ["X", "1"] (buildCurrent oraclePrimary [⟨"X", ["1"]⟩] []) = some r ∧
        r.basename = "show_20240101" ∧ r.logical_name = "Unknown Ingest" ∧
        (pyJoin ["X", "1"], r) ∈ save_state (buildCurrent oraclePrimary [⟨"X", ["1"]⟩] []) ∧
        (pyJoin ["X", "1"], r) ∈
          get_current_status (buildCurrent oraclePrimary [⟨"X", ["1"]⟩] [])) ∧
    start_secondary_recording SourcesResult.netFail true true dvrIdle "rec"
      "Unknown Ingest" = ([], dvrIdle) :=
  ⟨(unknown_ingest_handling oraclePrimary [⟨"X", ["1"]⟩] ⟨"X", ["1"]⟩ "1"
      "show_20240101" (by decide) (by decide) (by decide) (by decide) (by decide)).2.1,
   (unknown_ingest_handling oraclePrimary [⟨"X", ["1"]⟩] ⟨"X", ["1"]⟩ "1"
      "show_20240101" (by decide) (by decide) (by decide) (by decide) (by decide)).2.2.1
      SourcesResult.netFail true true dvrIdle "rec"⟩

end MovieRecord
